import Mathlib

/-!
Verification development for the OffAxis repository.

The off-axis projection core lives in `src/lib/offAxisCamera.js` and the
eye-position controller / head-tracking adapter in
`src/components/OffAxisViewer.vue`.  JavaScript numbers are modelled by real
numbers; `THREE.Vector3` is modelled by the `Vec3` structure below together
with the exact formulas of the three.js vector operations the code calls
(`subVectors`, `crossVectors`, `normalize`, `dot`, `multiplyScalar`, `lerp`).
-/

namespace OffAxis

noncomputable section

/-- Model of `THREE.Vector3`: three real components. -/
@[ext]
structure Vec3 where
  x : ℝ
  y : ℝ
  z : ℝ

namespace Vec3

/-- The zero vector, `new THREE.Vector3()` / `set(0, 0, 0)`. -/
def zero : Vec3 := ⟨0, 0, 0⟩

instance : Zero Vec3 := ⟨zero⟩

/-- Componentwise addition (`THREE.Vector3.add`). -/
def add (a b : Vec3) : Vec3 := ⟨a.x + b.x, a.y + b.y, a.z + b.z⟩

instance : Add Vec3 := ⟨add⟩

/-- Componentwise subtraction (`THREE.Vector3.subVectors` / `sub`). -/
def sub (a b : Vec3) : Vec3 := ⟨a.x - b.x, a.y - b.y, a.z - b.z⟩

instance : Sub Vec3 := ⟨sub⟩

/-- Scalar multiplication (`THREE.Vector3.multiplyScalar`). -/
def smul (c : ℝ) (v : Vec3) : Vec3 := ⟨c * v.x, c * v.y, c * v.z⟩

instance : SMul ℝ Vec3 := ⟨smul⟩

/-- Dot product (`THREE.Vector3.dot`). -/
def dot (a b : Vec3) : ℝ := a.x * b.x + a.y * b.y + a.z * b.z

/-- Cross product (`THREE.Vector3.crossVectors`). -/
def cross (a b : Vec3) : Vec3 :=
  ⟨a.y * b.z - a.z * b.y, a.z * b.x - a.x * b.z, a.x * b.y - a.y * b.x⟩

/-- Euclidean length (`THREE.Vector3.length`): `sqrt(x*x + y*y + z*z)`. -/
def length (v : Vec3) : ℝ := Real.sqrt (v.x * v.x + v.y * v.y + v.z * v.z)

/-- Normalization as three.js implements it:
`normalize() = divideScalar(this.length() || 1)`.
The JavaScript `||` turns a zero length into the divisor `1`, so the zero
vector is mapped to itself rather than raising an error. -/
def normalize (v : Vec3) : Vec3 :=
  ((1 : ℝ) / (if v.length = 0 then 1 else v.length)) • v

/-- Linear interpolation (`THREE.Vector3.lerp`):
each component moves the fraction `alpha` of the way toward `target`. -/
def lerp (v target : Vec3) (alpha : ℝ) : Vec3 :=
  ⟨v.x + (target.x - v.x) * alpha,
   v.y + (target.y - v.y) * alpha,
   v.z + (target.z - v.z) * alpha⟩

@[simp] lemma zero_x : (0 : Vec3).x = 0 := rfl
@[simp] lemma zero_y : (0 : Vec3).y = 0 := rfl
@[simp] lemma zero_z : (0 : Vec3).z = 0 := rfl
@[simp] lemma add_x (a b : Vec3) : (a + b).x = a.x + b.x := rfl
@[simp] lemma add_y (a b : Vec3) : (a + b).y = a.y + b.y := rfl
@[simp] lemma add_z (a b : Vec3) : (a + b).z = a.z + b.z := rfl
@[simp] lemma sub_x (a b : Vec3) : (a - b).x = a.x - b.x := rfl
@[simp] lemma sub_y (a b : Vec3) : (a - b).y = a.y - b.y := rfl
@[simp] lemma sub_z (a b : Vec3) : (a - b).z = a.z - b.z := rfl
@[simp] lemma smul_x (c : ℝ) (v : Vec3) : (c • v).x = c * v.x := rfl
@[simp] lemma smul_y (c : ℝ) (v : Vec3) : (c • v).y = c * v.y := rfl
@[simp] lemma smul_z (c : ℝ) (v : Vec3) : (c • v).z = c * v.z := rfl

lemma smul_smul (c d : ℝ) (v : Vec3) : c • (d • v) = (c * d) • v := by
  ext <;> simp <;> ring

lemma dot_add_right (a b c : Vec3) : a.dot (b + c) = a.dot b + a.dot c := by
  simp only [dot, add_x, add_y, add_z]; ring

lemma dot_comm (a b : Vec3) : a.dot b = b.dot a := by
  simp only [dot]; ring

lemma dot_smul_left (c : ℝ) (a b : Vec3) : (c • a).dot b = c * a.dot b := by
  simp only [dot, smul_x, smul_y, smul_z]; ring

lemma dot_smul_right (c : ℝ) (a b : Vec3) : a.dot (c • b) = c * a.dot b := by
  simp only [dot, smul_x, smul_y, smul_z]; ring

lemma cross_smul_left (c : ℝ) (a b : Vec3) : (c • a).cross b = c • a.cross b := by
  ext <;> simp only [cross, smul_x, smul_y, smul_z] <;> ring

lemma cross_smul_right (c : ℝ) (a b : Vec3) : a.cross (c • b) = c • a.cross b := by
  ext <;> simp only [cross, smul_x, smul_y, smul_z] <;> ring

lemma dot_cross_left (a b : Vec3) : (a.cross b).dot a = 0 := by
  simp only [dot, cross]; ring

lemma dot_cross_right (a b : Vec3) : (a.cross b).dot b = 0 := by
  simp only [dot, cross]; ring

/-- Lagrange identity for the squared length of a cross product. -/
lemma cross_dot_self (a b : Vec3) :
    (a.cross b).dot (a.cross b) = a.dot a * b.dot b - (a.dot b) ^ 2 := by
  simp only [dot, cross]; ring

lemma sum_sq_nonneg (v : Vec3) : 0 ≤ v.x * v.x + v.y * v.y + v.z * v.z :=
  add_nonneg (add_nonneg (mul_self_nonneg _) (mul_self_nonneg _)) (mul_self_nonneg _)

lemma dot_self_nonneg (v : Vec3) : 0 ≤ v.dot v := v.sum_sq_nonneg

lemma dot_self_eq_zero_iff (v : Vec3) : v.dot v = 0 ↔ v = 0 := by
  constructor
  · intro h
    have hsum : v.x * v.x + v.y * v.y + v.z * v.z = 0 := h
    have hx : v.x * v.x = 0 := by
      nlinarith [mul_self_nonneg v.x, mul_self_nonneg v.y, mul_self_nonneg v.z]
    have hy : v.y * v.y = 0 := by
      nlinarith [mul_self_nonneg v.x, mul_self_nonneg v.y, mul_self_nonneg v.z]
    have hz : v.z * v.z = 0 := by
      nlinarith [mul_self_nonneg v.x, mul_self_nonneg v.y, mul_self_nonneg v.z]
    ext
    · exact mul_self_eq_zero.mp hx
    · exact mul_self_eq_zero.mp hy
    · exact mul_self_eq_zero.mp hz
  · intro h; subst h; simp [dot]

lemma length_nonneg (v : Vec3) : 0 ≤ v.length := Real.sqrt_nonneg _

lemma length_sq (v : Vec3) : v.length * v.length = v.dot v := by
  simpa [length, dot] using Real.mul_self_sqrt v.sum_sq_nonneg

lemma length_eq_zero_iff (v : Vec3) : v.length = 0 ↔ v = 0 := by
  rw [length, Real.sqrt_eq_zero v.sum_sq_nonneg]
  constructor
  · intro hz
    exact (dot_self_eq_zero_iff v).mp (by simpa [dot] using hz)
  · intro hz; subst hz; simp

lemma length_pos (v : Vec3) (h : v ≠ 0) : 0 < v.length :=
  lt_of_le_of_ne (length_nonneg v) fun he => h ((length_eq_zero_iff v).mp he.symm)

/-- Normalization is always a nonnegative scalar multiple of the input. -/
lemma normalize_eq_smul (v : Vec3) :
    v.normalize = ((1 : ℝ) / (if v.length = 0 then 1 else v.length)) • v := rfl

lemma normalize_zero : (0 : Vec3).normalize = 0 := by
  ext <;> simp [normalize]

lemma dot_normalize_left (a b : Vec3) :
    a.normalize.dot b = ((1 : ℝ) / (if a.length = 0 then 1 else a.length)) * a.dot b := by
  rw [normalize_eq_smul, dot_smul_left]

lemma normalize_dot_self (v : Vec3) (h : v ≠ 0) :
    v.normalize.dot v.normalize = 1 := by
  have hl : v.length ≠ 0 := fun he => h ((length_eq_zero_iff v).mp he)
  rw [normalize_eq_smul, dot_smul_left, dot_smul_right, if_neg hl]
  rw [← length_sq v]
  field_simp

lemma smul_eq_zero_iff (c : ℝ) (v : Vec3) : c • v = 0 ↔ c = 0 ∨ v = 0 := by
  constructor
  · intro h
    rcases eq_or_ne c 0 with hc | hc
    · exact Or.inl hc
    · refine Or.inr ?_
      ext
      · have := congrArg Vec3.x h; simp at this; tauto
      · have := congrArg Vec3.y h; simp at this; tauto
      · have := congrArg Vec3.z h; simp at this; tauto
  · rintro (h | h) <;> subst h <;> (ext <;> simp)

end Vec3

/-- clamp from `src/lib/offAxisCamera.js` lines 26-28 (and the identical helper
in `OffAxisViewer.vue`): `Math.min(max, Math.max(min, value))`. -/
def clamp (value lo hi : ℝ) : ℝ := min hi (max lo value)

lemma clamp_le (value lo hi : ℝ) : clamp value lo hi ≤ hi := min_le_left _ _

lemma le_clamp (value lo hi : ℝ) (h : lo ≤ hi) : lo ≤ clamp value lo hi :=
  le_min h (le_max_left _ _)

lemma clamp_eq_of_mem (value lo hi : ℝ) (h1 : lo ≤ value) (h2 : value ≤ hi) :
    clamp value lo hi = value := by
  rw [clamp, max_eq_right h1, min_eq_right h2]

/-- Result of `computeScreenBasis` (`src/lib/offAxisCamera.js` line 58):
the screen right / up / normal vectors. -/
structure ScreenBasis where
  vr : Vec3
  vu : Vec3
  vn : Vec3

/-- The screen normal before the sign correction
(`src/lib/offAxisCamera.js` lines 48-50):
`vr = normalize(pb - pa)`, `vu = normalize(pc - pa)`, `vn = normalize(vr x vu)`. -/
def vn0 (pa pb pc : Vec3) : Vec3 :=
  ((pb - pa).normalize.cross (pc - pa).normalize).normalize

/-- computeScreenBasis, `src/lib/offAxisCamera.js` lines 47-59:
computes `vr`, `vu`, `vn` as above, then with `va = pa - eye` and
`d = -va.dot(vn)`, negates `vn` when `d < 0` (`outVn.multiplyScalar(-1)`). -/
def computeScreenBasis (pa pb pc eye : Vec3) : ScreenBasis :=
  { vr := (pb - pa).normalize
    vu := (pc - pa).normalize
    vn := if -((pa - eye).dot (vn0 pa pb pc)) < 0
          then (-1 : ℝ) • vn0 pa pb pc
          else vn0 pa pb pc }

/-- computeScreenBasis viewed through an exception monad.  The JavaScript
function body (`src/lib/offAxisCamera.js` lines 47-59) contains no `throw`
and calls only total three.js vector operations (`normalize` maps the zero
vector to itself), so the translation always returns `Except.ok`; any error
the spec expects the function to raise would show up here as `Except.error`. -/
def computeScreenBasisE (pa pb pc eye : Vec3) : Except String ScreenBasis :=
  Except.ok (computeScreenBasis pa pb pc eye)

/-- Signed eye-to-plane distance of `src/lib/offAxisCamera.js` line 85:
`d = -va.dot(vn)` with `va = pa - eye` and `vn` the corrected normal. -/
def dOf (pa pb pc eye : Vec3) : ℝ :=
  -((pa - eye).dot (computeScreenBasis pa pb pc eye).vn)

/-- Clamped distance of `src/lib/offAxisCamera.js` line 86:
`safeD = clamp(d, 1e-6, Number.POSITIVE_INFINITY)`.  The upper bound is
`+Infinity`, which no real number reaches, so over ℝ the clamp is exactly
`max 1e-6 d`. -/
def safeDOf (pa pb pc eye : Vec3) : ℝ := max 1e-6 (dOf pa pb pc eye)

/-- Projection matrix of `THREE.Matrix4.makePerspective(left, right, top,
bottom, near, far)` (WebGL depth convention), written row-major. -/
def makePerspective (left right top bottom near far : ℝ) :
    Matrix (Fin 4) (Fin 4) ℝ :=
  Matrix.of
    ![![2 * near / (right - left), 0, (right + left) / (right - left), 0],
      ![0, 2 * near / (top - bottom), (top + bottom) / (top - bottom), 0],
      ![0, 0, -(far + near) / (far - near), -2 * far * near / (far - near)],
      ![0, 0, -1, 0]]

/-- The values updateOffAxisCamera writes for one invocation. -/
structure OffAxisResult where
  left : ℝ
  right : ℝ
  bottom : ℝ
  top : ℝ
  projectionMatrix : Matrix (Fin 4) (Fin 4) ℝ

/-- updateOffAxisCamera, `src/lib/offAxisCamera.js` lines 68-96 (projection
part): computes the corrected basis, `va/vb/vc = pa/pb/pc - eye`, the clamped
distance `safeD`, the four near-plane bounds
`left/right/bottom/top = (vr|vu).dot(va|vb|vc) * near / safeD`, and the
matrix `makePerspective(left, right, top, bottom, near, far)`.
Source defaults: `near = 0.05`, `far = 100`. -/
def updateOffAxisCamera (eye pa pb pc : Vec3) (near far : ℝ) : OffAxisResult :=
  let b := computeScreenBasis pa pb pc eye
  let va := pa - eye
  let vb := pb - eye
  let vc := pc - eye
  let safeD := safeDOf pa pb pc eye
  { left := b.vr.dot va * near / safeD
    right := b.vr.dot vb * near / safeD
    bottom := b.vu.dot va * near / safeD
    top := b.vu.dot vc * near / safeD
    projectionMatrix :=
      makePerspective (b.vr.dot va * near / safeD) (b.vr.dot vb * near / safeD)
        (b.vu.dot vc * near / safeD) (b.vu.dot va * near / safeD) near far }

lemma basis_vr (pa pb pc eye : Vec3) :
    (computeScreenBasis pa pb pc eye).vr = (pb - pa).normalize := rfl

lemma basis_vu (pa pb pc eye : Vec3) :
    (computeScreenBasis pa pb pc eye).vu = (pc - pa).normalize := rfl

/-- The corrected normal is `vn0` or its negation. -/
lemma basis_vn_cases (pa pb pc eye : Vec3) :
    (computeScreenBasis pa pb pc eye).vn = vn0 pa pb pc ∨
    (computeScreenBasis pa pb pc eye).vn = (-1 : ℝ) • vn0 pa pb pc := by
  unfold computeScreenBasis
  dsimp only
  split
  · exact Or.inr rfl
  · exact Or.inl rfl

/-- The uncorrected normal is a scalar multiple of `(pb - pa) x (pc - pa)`. -/
lemma vn0_eq_smul_cross (pa pb pc : Vec3) :
    ∃ k : ℝ, vn0 pa pb pc = k • ((pb - pa).cross (pc - pa)) := by
  rw [vn0, Vec3.normalize_eq_smul (pb - pa), Vec3.normalize_eq_smul (pc - pa),
    Vec3.cross_smul_left, Vec3.cross_smul_right, Vec3.smul_smul,
    Vec3.normalize_eq_smul, Vec3.smul_smul]
  exact ⟨_, rfl⟩

/-- The uncorrected normal is orthogonal to `pb - pa`. -/
lemma vn0_dot_u (pa pb pc : Vec3) : (vn0 pa pb pc).dot (pb - pa) = 0 := by
  obtain ⟨k, hk⟩ := vn0_eq_smul_cross pa pb pc
  rw [hk, Vec3.dot_smul_left, Vec3.dot_cross_left, mul_zero]

/-- The uncorrected normal is orthogonal to `pc - pa`. -/
lemma vn0_dot_w (pa pb pc : Vec3) : (vn0 pa pb pc).dot (pc - pa) = 0 := by
  obtain ⟨k, hk⟩ := vn0_eq_smul_cross pa pb pc
  rw [hk, Vec3.dot_smul_left, Vec3.dot_cross_right, mul_zero]

/-- The corrected normal is orthogonal to `pb - pa`. -/
lemma basis_vn_dot_u (pa pb pc eye : Vec3) :
    (computeScreenBasis pa pb pc eye).vn.dot (pb - pa) = 0 := by
  rcases basis_vn_cases pa pb pc eye with h | h <;>
    rw [h] <;> simp [Vec3.dot_smul_left, vn0_dot_u]

/-- The corrected normal is orthogonal to `pc - pa`. -/
lemma basis_vn_dot_w (pa pb pc eye : Vec3) :
    (computeScreenBasis pa pb pc eye).vn.dot (pc - pa) = 0 := by
  rcases basis_vn_cases pa pb pc eye with h | h <;>
    rw [h] <;> simp [Vec3.dot_smul_left, vn0_dot_w]

lemma updateOffAxisCamera_left (eye pa pb pc : Vec3) (near far : ℝ) :
    (updateOffAxisCamera eye pa pb pc near far).left
      = (pb - pa).normalize.dot (pa - eye) * near / safeDOf pa pb pc eye := rfl

lemma updateOffAxisCamera_right (eye pa pb pc : Vec3) (near far : ℝ) :
    (updateOffAxisCamera eye pa pb pc near far).right
      = (pb - pa).normalize.dot (pb - eye) * near / safeDOf pa pb pc eye := rfl

lemma updateOffAxisCamera_bottom (eye pa pb pc : Vec3) (near far : ℝ) :
    (updateOffAxisCamera eye pa pb pc near far).bottom
      = (pc - pa).normalize.dot (pa - eye) * near / safeDOf pa pb pc eye := rfl

lemma updateOffAxisCamera_top (eye pa pb pc : Vec3) (near far : ℝ) :
    (updateOffAxisCamera eye pa pb pc near far).top
      = (pc - pa).normalize.dot (pc - eye) * near / safeDOf pa pb pc eye := rfl

/-- On a rectangular screen, the two normalized edge directions are
orthogonal. -/
lemma normalize_dot_normalize_eq_zero (u w : Vec3) (h : u.dot w = 0) :
    u.normalize.dot w.normalize = 0 := by
  rw [Vec3.normalize_eq_smul, Vec3.normalize_eq_smul, Vec3.dot_smul_left,
    Vec3.dot_smul_right, h]
  ring

/-- For a non-degenerate rectangular screen the uncorrected normal is a unit
vector. -/
lemma vn0_dot_self_rect (pa pb pc : Vec3) (hu : pb - pa ≠ 0) (hw : pc - pa ≠ 0)
    (hrect : (pb - pa).dot (pc - pa) = 0) :
    (vn0 pa pb pc).dot (vn0 pa pb pc) = 1 := by
  have hC : ((pb - pa).normalize.cross (pc - pa).normalize).dot
      ((pb - pa).normalize.cross (pc - pa).normalize) = 1 := by
    rw [Vec3.cross_dot_self, Vec3.normalize_dot_self _ hu, Vec3.normalize_dot_self _ hw,
      normalize_dot_normalize_eq_zero _ _ hrect]
    norm_num
  have hCne : (pb - pa).normalize.cross (pc - pa).normalize ≠ 0 := by
    intro h
    rw [h] at hC
    simp [Vec3.dot] at hC
  rw [vn0]
  exact Vec3.normalize_dot_self _ hCne

/-- C1: for a rectangular screen plane and an eye on the screen's central
axis at positive distance `D` along the (uncorrected, hence also corrected)
normal, updateOffAxisCamera produces a symmetric frustum:
`left = -right` and `bottom = -top`. -/
theorem updateOffAxisCamera_symmetric
    (pa pb pc eye : Vec3) (near far D : ℝ)
    (hu : pb - pa ≠ 0) (hw : pc - pa ≠ 0)
    (hrect : (pb - pa).dot (pc - pa) = 0) (hD : 0 < D)
    (heye : eye = pa + (2⁻¹ : ℝ) • (pb - pa) + (2⁻¹ : ℝ) • (pc - pa)
      + D • vn0 pa pb pc) :
    (computeScreenBasis pa pb pc eye).vn = vn0 pa pb pc ∧
    (updateOffAxisCamera eye pa pb pc near far).left
      = -(updateOffAxisCamera eye pa pb pc near far).right ∧
    (updateOffAxisCamera eye pa pb pc near far).bottom
      = -(updateOffAxisCamera eye pa pb pc near far).top := by
  have hva : pa - eye = (-(2⁻¹) : ℝ) • (pb - pa) + (-(2⁻¹) : ℝ) • (pc - pa)
      + (-D : ℝ) • vn0 pa pb pc := by
    rw [heye]; ext <;> simp <;> ring
  have hvb : pb - eye = ((2⁻¹) : ℝ) • (pb - pa) + (-(2⁻¹) : ℝ) • (pc - pa)
      + (-D : ℝ) • vn0 pa pb pc := by
    rw [heye]; ext <;> simp <;> ring
  have hvc : pc - eye = (-(2⁻¹) : ℝ) • (pb - pa) + ((2⁻¹) : ℝ) • (pc - pa)
      + (-D : ℝ) • vn0 pa pb pc := by
    rw [heye]; ext <;> simp <;> ring
  have hun : (pb - pa).dot (vn0 pa pb pc) = 0 := by
    rw [Vec3.dot_comm]; exact vn0_dot_u pa pb pc
  have hwn : (pc - pa).dot (vn0 pa pb pc) = 0 := by
    rw [Vec3.dot_comm]; exact vn0_dot_w pa pb pc
  have hwu : (pc - pa).dot (pb - pa) = 0 := by
    rw [Vec3.dot_comm]; exact hrect
  have hnn : (vn0 pa pb pc).dot (vn0 pa pb pc) = 1 :=
    vn0_dot_self_rect pa pb pc hu hw hrect
  have h1 : (pb - pa).dot (pa - eye) = -(2⁻¹) * (pb - pa).dot (pb - pa) := by
    rw [hva, Vec3.dot_add_right, Vec3.dot_add_right, Vec3.dot_smul_right,
      Vec3.dot_smul_right, Vec3.dot_smul_right, hrect, hun]
    ring
  have h2 : (pb - pa).dot (pb - eye) = (2⁻¹) * (pb - pa).dot (pb - pa) := by
    rw [hvb, Vec3.dot_add_right, Vec3.dot_add_right, Vec3.dot_smul_right,
      Vec3.dot_smul_right, Vec3.dot_smul_right, hrect, hun]
    ring
  have h3 : (pc - pa).dot (pa - eye) = -(2⁻¹) * (pc - pa).dot (pc - pa) := by
    rw [hva, Vec3.dot_add_right, Vec3.dot_add_right, Vec3.dot_smul_right,
      Vec3.dot_smul_right, Vec3.dot_smul_right, hwu, hwn]
    ring
  have h4 : (pc - pa).dot (pc - eye) = (2⁻¹) * (pc - pa).dot (pc - pa) := by
    rw [hvc, Vec3.dot_add_right, Vec3.dot_add_right, Vec3.dot_smul_right,
      Vec3.dot_smul_right, Vec3.dot_smul_right, hwu, hwn]
    ring
  have h5 : (vn0 pa pb pc).dot (pa - eye) = -D := by
    rw [hva, Vec3.dot_add_right, Vec3.dot_add_right, Vec3.dot_smul_right,
      Vec3.dot_smul_right, Vec3.dot_smul_right, vn0_dot_u, vn0_dot_w, hnn]
    ring
  have hcond : ¬(-((pa - eye).dot (vn0 pa pb pc)) < 0) := by
    rw [Vec3.dot_comm, h5]
    linarith
  refine ⟨?_, ?_, ?_⟩
  · unfold computeScreenBasis
    dsimp only
    rw [if_neg hcond]
  · rw [updateOffAxisCamera_left, updateOffAxisCamera_right,
      Vec3.dot_normalize_left, Vec3.dot_normalize_left, h1, h2]
    ring
  · rw [updateOffAxisCamera_bottom, updateOffAxisCamera_top,
      Vec3.dot_normalize_left, Vec3.dot_normalize_left, h3, h4]
    ring

/-- C2: after the sign correction of computeScreenBasis, the normal always
satisfies `(pa - eye).dot vn <= 0`, for any eye position and independent of
the winding order of the corner points. -/
theorem computeScreenBasis_normal_sign (pa pb pc eye : Vec3)
    (hnc : (pb - pa).cross (pc - pa) ≠ 0) :
    (pa - eye).dot (computeScreenBasis pa pb pc eye).vn ≤ 0 := by
  unfold computeScreenBasis
  dsimp only
  split
  · rename_i h
    rw [Vec3.dot_smul_right]
    nlinarith [h]
  · rename_i h
    push_neg at h
    linarith

/-- Witness for C1: unit square screen `pa = (0,0,0)`, `pb = (1,0,0)`,
`pc = (0,1,0)`, eye `(1/2, 1/2, 1)` on the central axis at distance 1. -/
theorem updateOffAxisCamera_symmetric_witness :
    (0 : ℝ) < 1 ∧
    (updateOffAxisCamera ⟨2⁻¹, 2⁻¹, 1⟩ ⟨0, 0, 0⟩ ⟨1, 0, 0⟩ ⟨0, 1, 0⟩ 0.05 100).left
      = -(updateOffAxisCamera ⟨2⁻¹, 2⁻¹, 1⟩ ⟨0, 0, 0⟩ ⟨1, 0, 0⟩ ⟨0, 1, 0⟩ 0.05 100).right ∧
    (updateOffAxisCamera ⟨2⁻¹, 2⁻¹, 1⟩ ⟨0, 0, 0⟩ ⟨1, 0, 0⟩ ⟨0, 1, 0⟩ 0.05 100).bottom
      = -(updateOffAxisCamera ⟨2⁻¹, 2⁻¹, 1⟩ ⟨0, 0, 0⟩ ⟨1, 0, 0⟩ ⟨0, 1, 0⟩ 0.05 100).top := by
  have hvn0 : vn0 (⟨0, 0, 0⟩ : Vec3) ⟨1, 0, 0⟩ ⟨0, 1, 0⟩ = ⟨0, 0, 1⟩ := by
    rw [vn0]
    ext <;> norm_num [Vec3.normalize, Vec3.length, Vec3.cross]
  have hu : (⟨1, 0, 0⟩ : Vec3) - ⟨0, 0, 0⟩ ≠ 0 := by
    intro hcon
    have h' := congrArg Vec3.x hcon
    simp at h'
  have hw : (⟨0, 1, 0⟩ : Vec3) - ⟨0, 0, 0⟩ ≠ 0 := by
    intro hcon
    have h' := congrArg Vec3.y hcon
    simp at h'
  have hrect : ((⟨1, 0, 0⟩ : Vec3) - ⟨0, 0, 0⟩).dot ((⟨0, 1, 0⟩ : Vec3) - ⟨0, 0, 0⟩) = 0 := by
    norm_num [Vec3.dot]
  have heye : (⟨2⁻¹, 2⁻¹, 1⟩ : Vec3)
      = ⟨0, 0, 0⟩ + (2⁻¹ : ℝ) • ((⟨1, 0, 0⟩ : Vec3) - ⟨0, 0, 0⟩)
        + (2⁻¹ : ℝ) • ((⟨0, 1, 0⟩ : Vec3) - ⟨0, 0, 0⟩)
        + (1 : ℝ) • vn0 ⟨0, 0, 0⟩ ⟨1, 0, 0⟩ ⟨0, 1, 0⟩ := by
    rw [hvn0]
    ext <;> norm_num
  have h := updateOffAxisCamera_symmetric ⟨0, 0, 0⟩ ⟨1, 0, 0⟩ ⟨0, 1, 0⟩
    ⟨2⁻¹, 2⁻¹, 1⟩ 0.05 100 1 hu hw hrect (by norm_num) heye
  exact ⟨by norm_num, h.2.1, h.2.2⟩

/-- Witness for C2: non-collinear corners of the unit square and an eye
behind the screen plane (negative side, exercising the sign flip). -/
theorem computeScreenBasis_normal_sign_witness :
    ((⟨1, 0, 0⟩ : Vec3) - ⟨0, 0, 0⟩).cross ((⟨0, 1, 0⟩ : Vec3) - ⟨0, 0, 0⟩) ≠ 0 ∧
    ((⟨0, 0, 0⟩ : Vec3) - ⟨0.3, 0.2, -2⟩).dot
      (computeScreenBasis ⟨0, 0, 0⟩ ⟨1, 0, 0⟩ ⟨0, 1, 0⟩ ⟨0.3, 0.2, -2⟩).vn ≤ 0 := by
  have hnc : ((⟨1, 0, 0⟩ : Vec3) - ⟨0, 0, 0⟩).cross ((⟨0, 1, 0⟩ : Vec3) - ⟨0, 0, 0⟩) ≠ 0 := by
    intro hcon
    have h' := congrArg Vec3.z hcon
    simp [Vec3.cross] at h'
  exact ⟨hnc, computeScreenBasis_normal_sign ⟨0, 0, 0⟩ ⟨1, 0, 0⟩ ⟨0, 1, 0⟩ ⟨0.3, 0.2, -2⟩ hnc⟩

/-- Over the reals every value is finite.  The JavaScript evaluation of
`makePerspective(left, right, top, bottom, near, far)` produces a non-finite
entry (NaN or Infinity) exactly when one of its three divisions has a zero
divisor while all operands are finite, so finiteness of every matrix entry is
the conjunction below. -/
def finiteMakePerspective (left right top bottom near far : ℝ) : Prop :=
  right - left ≠ 0 ∧ top - bottom ≠ 0 ∧ far - near ≠ 0

/-- C3: with the eye exactly on the screen plane the signed distance `d`
vanishes, the clamp yields `safeD = 1e-6` (so the division producing the
near-plane bounds has a nonzero divisor), and every entry of the projection
matrix built by `makePerspective` is finite (its three divisors are nonzero). -/
theorem updateOffAxisCamera_distance_clamp
    (pa pb pc eye : Vec3) (alpha beta near far : ℝ)
    (hu : pb - pa ≠ 0) (hw : pc - pa ≠ 0)
    (hnear : 0 < near) (hfar : near < far)
    (heye : eye = pa + alpha • (pb - pa) + beta • (pc - pa)) :
    dOf pa pb pc eye = 0 ∧
    safeDOf pa pb pc eye = 1e-6 ∧
    finiteMakePerspective
      (updateOffAxisCamera eye pa pb pc near far).left
      (updateOffAxisCamera eye pa pb pc near far).right
      (updateOffAxisCamera eye pa pb pc near far).top
      (updateOffAxisCamera eye pa pb pc near far).bottom
      near far := by
  have hva : pa - eye = (-alpha : ℝ) • (pb - pa) + (-beta : ℝ) • (pc - pa) := by
    rw [heye]; ext <;> simp <;> ring
  have hd0 : (pa - eye).dot (computeScreenBasis pa pb pc eye).vn = 0 := by
    rw [Vec3.dot_comm, hva, Vec3.dot_add_right, Vec3.dot_smul_right,
      Vec3.dot_smul_right, basis_vn_dot_u, basis_vn_dot_w]
    ring
  have hdOf : dOf pa pb pc eye = 0 := by
    rw [dOf, hd0, neg_zero]
  have hsafe : safeDOf pa pb pc eye = 1e-6 := by
    rw [safeDOf, hdOf]
    exact max_eq_left (by norm_num)
  have hsafepos : 0 < safeDOf pa pb pc eye := by
    rw [hsafe]; norm_num
  have hLu : (if (pb - pa).length = 0 then (1 : ℝ) else (pb - pa).length)
      = (pb - pa).length :=
    if_neg fun h => hu ((Vec3.length_eq_zero_iff _).mp h)
  have hLw : (if (pc - pa).length = 0 then (1 : ℝ) else (pc - pa).length)
      = (pc - pa).length :=
    if_neg fun h => hw ((Vec3.length_eq_zero_iff _).mp h)
  have hlenu : 0 < (pb - pa).length := Vec3.length_pos _ hu
  have hlenw : 0 < (pc - pa).length := Vec3.length_pos _ hw
  have huu : 0 < (pb - pa).dot (pb - pa) :=
    lt_of_le_of_ne (Vec3.dot_self_nonneg _)
      (Ne.symm fun h => hu ((Vec3.dot_self_eq_zero_iff _).mp h))
  have hww : 0 < (pc - pa).dot (pc - pa) :=
    lt_of_le_of_ne (Vec3.dot_self_nonneg _)
      (Ne.symm fun h => hw ((Vec3.dot_self_eq_zero_iff _).mp h))
  have hsubu : (pb - pa).dot (pb - eye) - (pb - pa).dot (pa - eye)
      = (pb - pa).dot (pb - pa) := by
    simp only [Vec3.dot, Vec3.sub_x, Vec3.sub_y, Vec3.sub_z]; ring
  have hsubw : (pc - pa).dot (pc - eye) - (pc - pa).dot (pa - eye)
      = (pc - pa).dot (pc - pa) := by
    simp only [Vec3.dot, Vec3.sub_x, Vec3.sub_y, Vec3.sub_z]; ring
  have hdiffu : (updateOffAxisCamera eye pa pb pc near far).right
      - (updateOffAxisCamera eye pa pb pc near far).left
      = 1 / (pb - pa).length * ((pb - pa).dot (pb - pa)) * near
        / safeDOf pa pb pc eye := by
    rw [updateOffAxisCamera_right, updateOffAxisCamera_left,
      Vec3.dot_normalize_left, Vec3.dot_normalize_left, hLu]
    linear_combination (1 / (pb - pa).length * near / safeDOf pa pb pc eye) * hsubu
  have hdiffw : (updateOffAxisCamera eye pa pb pc near far).top
      - (updateOffAxisCamera eye pa pb pc near far).bottom
      = 1 / (pc - pa).length * ((pc - pa).dot (pc - pa)) * near
        / safeDOf pa pb pc eye := by
    rw [updateOffAxisCamera_top, updateOffAxisCamera_bottom,
      Vec3.dot_normalize_left, Vec3.dot_normalize_left, hLw]
    linear_combination (1 / (pc - pa).length * near / safeDOf pa pb pc eye) * hsubw
  refine ⟨hdOf, hsafe, ?_, ?_, ?_⟩
  · rw [hdiffu]
    exact ne_of_gt (div_pos (mul_pos (mul_pos (one_div_pos.mpr hlenu) huu) hnear) hsafepos)
  · rw [hdiffw]
    exact ne_of_gt (div_pos (mul_pos (mul_pos (one_div_pos.mpr hlenw) hww) hnear) hsafepos)
  · exact sub_ne_zero.mpr (ne_of_gt hfar)

/-- Witness for C3: unit square screen and eye `(1/4, 1/2, 0)` lying exactly
on the screen plane. -/
theorem updateOffAxisCamera_distance_clamp_witness :
    (⟨2⁻¹, 0, 0⟩ : Vec3) ≠ 0 ∧
    dOf ⟨0, 0, 0⟩ ⟨1, 0, 0⟩ ⟨0, 1, 0⟩ ⟨4⁻¹, 2⁻¹, 0⟩ = 0 ∧
    safeDOf ⟨0, 0, 0⟩ ⟨1, 0, 0⟩ ⟨0, 1, 0⟩ ⟨4⁻¹, 2⁻¹, 0⟩ = 1e-6 ∧
    finiteMakePerspective
      (updateOffAxisCamera ⟨4⁻¹, 2⁻¹, 0⟩ ⟨0, 0, 0⟩ ⟨1, 0, 0⟩ ⟨0, 1, 0⟩ 0.05 100).left
      (updateOffAxisCamera ⟨4⁻¹, 2⁻¹, 0⟩ ⟨0, 0, 0⟩ ⟨1, 0, 0⟩ ⟨0, 1, 0⟩ 0.05 100).right
      (updateOffAxisCamera ⟨4⁻¹, 2⁻¹, 0⟩ ⟨0, 0, 0⟩ ⟨1, 0, 0⟩ ⟨0, 1, 0⟩ 0.05 100).top
      (updateOffAxisCamera ⟨4⁻¹, 2⁻¹, 0⟩ ⟨0, 0, 0⟩ ⟨1, 0, 0⟩ ⟨0, 1, 0⟩ 0.05 100).bottom
      0.05 100 := by
  have hu : (⟨1, 0, 0⟩ : Vec3) - ⟨0, 0, 0⟩ ≠ 0 := by
    intro hcon
    have h' := congrArg Vec3.x hcon
    simp at h'
  have hw : (⟨0, 1, 0⟩ : Vec3) - ⟨0, 0, 0⟩ ≠ 0 := by
    intro hcon
    have h' := congrArg Vec3.y hcon
    simp at h'
  have heye : (⟨4⁻¹, 2⁻¹, 0⟩ : Vec3)
      = ⟨0, 0, 0⟩ + (4⁻¹ : ℝ) • ((⟨1, 0, 0⟩ : Vec3) - ⟨0, 0, 0⟩)
        + (2⁻¹ : ℝ) • ((⟨0, 1, 0⟩ : Vec3) - ⟨0, 0, 0⟩) := by
    ext <;> norm_num
  have h := updateOffAxisCamera_distance_clamp ⟨0, 0, 0⟩ ⟨1, 0, 0⟩ ⟨0, 1, 0⟩
    ⟨4⁻¹, 2⁻¹, 0⟩ 4⁻¹ 2⁻¹ 0.05 100 hu hw (by norm_num) (by norm_num) heye
  refine ⟨?_, h.1, h.2.1, h.2.2⟩
  intro hcon
  have h' := congrArg Vec3.x hcon
  simp at h'

lemma vn0_dot_normalize_u (pa pb pc : Vec3) :
    (vn0 pa pb pc).dot (pb - pa).normalize = 0 := by
  rw [Vec3.normalize_eq_smul, Vec3.dot_smul_right, vn0_dot_u, mul_zero]

lemma vn0_dot_normalize_w (pa pb pc : Vec3) :
    (vn0 pa pb pc).dot (pc - pa).normalize = 0 := by
  rw [Vec3.normalize_eq_smul, Vec3.dot_smul_right, vn0_dot_w, mul_zero]

/-- C4 (counterexample): the non-degenerate triple `pa = (0,0,0)`,
`pb = (1,0,0)`, `pc = (1,1,0)` (a slanted parallelogram corner, not a
rectangle corner) yields `vr.dot vu = 1/sqrt 2`, not `0`: the basis returned
by computeScreenBasis is not mutually perpendicular for arbitrary
non-collinear corner triples. -/
theorem computeScreenBasis_orthonormal_counterexample :
    ((⟨1, 0, 0⟩ : Vec3) - ⟨0, 0, 0⟩).cross ((⟨1, 1, 0⟩ : Vec3) - ⟨0, 0, 0⟩) ≠ 0 ∧
    (computeScreenBasis ⟨0, 0, 0⟩ ⟨1, 0, 0⟩ ⟨1, 1, 0⟩ ⟨0, 0, 1⟩).vr.dot
      (computeScreenBasis ⟨0, 0, 0⟩ ⟨1, 0, 0⟩ ⟨1, 1, 0⟩ ⟨0, 0, 1⟩).vu ≠ 0 := by
  constructor
  · intro hcon
    have h' := congrArg Vec3.z hcon
    simp [Vec3.cross] at h'
  · rw [basis_vr, basis_vu]
    have e1 : ((⟨1, 0, 0⟩ : Vec3) - ⟨0, 0, 0⟩).normalize = ⟨1, 0, 0⟩ := by
      ext <;> norm_num [Vec3.normalize, Vec3.length]
    have hs2 : Real.sqrt 2 ≠ 0 := by positivity
    have e2 : ((⟨1, 1, 0⟩ : Vec3) - ⟨0, 0, 0⟩).normalize
        = ⟨1 / Real.sqrt 2, 1 / Real.sqrt 2, 0⟩ := by
      ext <;> norm_num [Vec3.normalize, Vec3.length, Real.sqrt_eq_zero']
    rw [e1, e2]
    simp only [Vec3.dot]
    norm_num

/-- C4 (amended): for a rectangular corner triple (adjacent edges orthogonal,
which is how every call site builds `pa/pb/pc`) and non-degenerate edges, the
computed basis vr, vu, vn is orthonormal. -/
theorem computeScreenBasis_orthonormal_rect
    (pa pb pc eye : Vec3)
    (hu : pb - pa ≠ 0) (hw : pc - pa ≠ 0)
    (hrect : (pb - pa).dot (pc - pa) = 0) :
    (computeScreenBasis pa pb pc eye).vr.dot (computeScreenBasis pa pb pc eye).vr = 1 ∧
    (computeScreenBasis pa pb pc eye).vu.dot (computeScreenBasis pa pb pc eye).vu = 1 ∧
    (computeScreenBasis pa pb pc eye).vn.dot (computeScreenBasis pa pb pc eye).vn = 1 ∧
    (computeScreenBasis pa pb pc eye).vr.dot (computeScreenBasis pa pb pc eye).vu = 0 ∧
    (computeScreenBasis pa pb pc eye).vr.dot (computeScreenBasis pa pb pc eye).vn = 0 ∧
    (computeScreenBasis pa pb pc eye).vu.dot (computeScreenBasis pa pb pc eye).vn = 0 := by
  have hnn := vn0_dot_self_rect pa pb pc hu hw hrect
  refine ⟨?_, ?_, ?_, ?_, ?_, ?_⟩
  · rw [basis_vr]; exact Vec3.normalize_dot_self _ hu
  · rw [basis_vu]; exact Vec3.normalize_dot_self _ hw
  · rcases basis_vn_cases pa pb pc eye with h | h <;> rw [h]
    · exact hnn
    · rw [Vec3.dot_smul_left, Vec3.dot_smul_right, hnn]; ring
  · rw [basis_vr, basis_vu]
    exact normalize_dot_normalize_eq_zero _ _ hrect
  · rw [basis_vr]
    rcases basis_vn_cases pa pb pc eye with h | h <;> rw [h]
    · rw [Vec3.dot_comm]; exact vn0_dot_normalize_u pa pb pc
    · rw [Vec3.dot_smul_right, Vec3.dot_comm, vn0_dot_normalize_u, mul_zero]
  · rw [basis_vu]
    rcases basis_vn_cases pa pb pc eye with h | h <;> rw [h]
    · rw [Vec3.dot_comm]; exact vn0_dot_normalize_w pa pb pc
    · rw [Vec3.dot_smul_right, Vec3.dot_comm, vn0_dot_normalize_w, mul_zero]

/-- Witness for the amended C4: unit square screen corners and an off-axis
eye position. -/
theorem computeScreenBasis_orthonormal_rect_witness :
    ((⟨1, 0, 0⟩ : Vec3) - ⟨0, 0, 0⟩).dot ((⟨0, 1, 0⟩ : Vec3) - ⟨0, 0, 0⟩) = 0 ∧
    (computeScreenBasis ⟨0, 0, 0⟩ ⟨1, 0, 0⟩ ⟨0, 1, 0⟩ ⟨0.2, 0.3, 0.9⟩).vr.dot
      (computeScreenBasis ⟨0, 0, 0⟩ ⟨1, 0, 0⟩ ⟨0, 1, 0⟩ ⟨0.2, 0.3, 0.9⟩).vr = 1 ∧
    (computeScreenBasis ⟨0, 0, 0⟩ ⟨1, 0, 0⟩ ⟨0, 1, 0⟩ ⟨0.2, 0.3, 0.9⟩).vr.dot
      (computeScreenBasis ⟨0, 0, 0⟩ ⟨1, 0, 0⟩ ⟨0, 1, 0⟩ ⟨0.2, 0.3, 0.9⟩).vu = 0 ∧
    (computeScreenBasis ⟨0, 0, 0⟩ ⟨1, 0, 0⟩ ⟨0, 1, 0⟩ ⟨0.2, 0.3, 0.9⟩).vu.dot
      (computeScreenBasis ⟨0, 0, 0⟩ ⟨1, 0, 0⟩ ⟨0, 1, 0⟩ ⟨0.2, 0.3, 0.9⟩).vn = 0 := by
  have hu : (⟨1, 0, 0⟩ : Vec3) - ⟨0, 0, 0⟩ ≠ 0 := by
    intro hcon
    have h' := congrArg Vec3.x hcon
    simp at h'
  have hw : (⟨0, 1, 0⟩ : Vec3) - ⟨0, 0, 0⟩ ≠ 0 := by
    intro hcon
    have h' := congrArg Vec3.y hcon
    simp at h'
  have hrect : ((⟨1, 0, 0⟩ : Vec3) - ⟨0, 0, 0⟩).dot ((⟨0, 1, 0⟩ : Vec3) - ⟨0, 0, 0⟩) = 0 := by
    norm_num [Vec3.dot]
  have h := computeScreenBasis_orthonormal_rect ⟨0, 0, 0⟩ ⟨1, 0, 0⟩ ⟨0, 1, 0⟩
    ⟨0.2, 0.3, 0.9⟩ hu hw hrect
  exact ⟨hrect, h.1, h.2.2.2.1, h.2.2.2.2.2⟩

lemma smul_zero_vec (c : ℝ) : c • (0 : Vec3) = 0 := by
  ext <;> simp

lemma dot_zero_right (a : Vec3) : a.dot 0 = 0 := by
  simp [Vec3.dot]

/-- C5 (amended): on collinear corner points the cross product vanishes, and
computeScreenBasis does NOT fail fast: it returns normally (no error value),
with the normal `vn` equal to the zero vector, because the three.js
`normalize` maps the zero vector to itself. -/
theorem computeScreenBasis_collinear_no_error
    (pa pb pc eye : Vec3)
    (hcol : (pb - pa).cross (pc - pa) = 0) :
    computeScreenBasisE pa pb pc eye
      = Except.ok ⟨(pb - pa).normalize, (pc - pa).normalize, 0⟩ := by
  have hvn0 : vn0 pa pb pc = 0 := by
    rw [vn0, Vec3.normalize_eq_smul (pb - pa), Vec3.normalize_eq_smul (pc - pa),
      Vec3.cross_smul_left, Vec3.cross_smul_right, hcol, smul_zero_vec,
      smul_zero_vec, Vec3.normalize_zero]
  simp only [computeScreenBasisE, computeScreenBasis, hvn0, dot_zero_right,
    neg_zero, lt_irrefl, if_false]

/-- C5 (counterexample): for the explicit collinear triple `(0,0,0)`,
`(1,0,0)`, `(2,0,0)` the basis computation returns a normal result (with a
zero normal vector) instead of raising an error. -/
theorem computeScreenBasis_collinear_counterexample :
    computeScreenBasisE ⟨0, 0, 0⟩ ⟨1, 0, 0⟩ ⟨2, 0, 0⟩ ⟨0, 0, 1⟩
      = Except.ok ⟨⟨1, 0, 0⟩, ⟨1, 0, 0⟩, ⟨0, 0, 0⟩⟩ := by
  have e1 : ((⟨1, 0, 0⟩ : Vec3) - ⟨0, 0, 0⟩).normalize = ⟨1, 0, 0⟩ := by
    ext <;> norm_num [Vec3.normalize, Vec3.length]
  have e2 : ((⟨2, 0, 0⟩ : Vec3) - ⟨0, 0, 0⟩).normalize = ⟨1, 0, 0⟩ := by
    have h4 : Real.sqrt 4 = 2 := by
      rw [show (4 : ℝ) = 2 ^ 2 by norm_num]
      exact Real.sqrt_sq (by norm_num)
    ext <;> norm_num [Vec3.normalize, Vec3.length, h4]
  simp only [computeScreenBasisE, computeScreenBasis, vn0, e1, e2]
  have hc : (⟨1, 0, 0⟩ : Vec3).cross ⟨1, 0, 0⟩ = 0 := by
    ext <;> norm_num [Vec3.cross]
  rw [hc, Vec3.normalize_zero]
  simp only [dot_zero_right, neg_zero, lt_irrefl, if_false]
  rfl

/-- Witness for the amended C5: a different collinear triple. -/
theorem computeScreenBasis_collinear_no_error_witness :
    ((⟨0, 2, 0⟩ : Vec3) - ⟨0, 0, 0⟩).cross ((⟨0, 1, 0⟩ : Vec3) - ⟨0, 0, 0⟩) = 0 ∧
    computeScreenBasisE ⟨0, 0, 0⟩ ⟨0, 2, 0⟩ ⟨0, 1, 0⟩ ⟨1, 0, 0⟩
      = Except.ok ⟨((⟨0, 2, 0⟩ : Vec3) - ⟨0, 0, 0⟩).normalize,
          ((⟨0, 1, 0⟩ : Vec3) - ⟨0, 0, 0⟩).normalize, 0⟩ := by
  have hcol : ((⟨0, 2, 0⟩ : Vec3) - ⟨0, 0, 0⟩).cross ((⟨0, 1, 0⟩ : Vec3) - ⟨0, 0, 0⟩) = 0 := by
    ext <;> norm_num [Vec3.cross]
  exact ⟨hcol, computeScreenBasis_collinear_no_error ⟨0, 0, 0⟩ ⟨0, 2, 0⟩ ⟨0, 1, 0⟩
    ⟨1, 0, 0⟩ hcol⟩

lemma basis_vn_dot_normalize_u (pa pb pc eye : Vec3) :
    (computeScreenBasis pa pb pc eye).vn.dot (pb - pa).normalize = 0 := by
  rcases basis_vn_cases pa pb pc eye with h | h <;> rw [h]
  · exact vn0_dot_normalize_u pa pb pc
  · rw [Vec3.dot_smul_left, vn0_dot_normalize_u, mul_zero]

lemma safeDOf_pos (pa pb pc eye : Vec3) : 0 < safeDOf pa pb pc eye :=
  lt_of_lt_of_le (by norm_num) (le_max_left _ _)

/-- C6: translating the eye by `t > 0` along the computed right vector `vr`
(fixed rectangular screen, fixed depth along the normal, unclamped distance
positive) strictly decreases both `left` and `right`. -/
theorem updateOffAxisCamera_lateral_monotone
    (pa pb pc eye : Vec3) (near far t : ℝ)
    (hu : pb - pa ≠ 0) (hw : pc - pa ≠ 0)
    (hrect : (pb - pa).dot (pc - pa) = 0)
    (hd : 0 < dOf pa pb pc eye)
    (hnear : 0 < near) (ht : 0 < t) :
    (updateOffAxisCamera (eye + t • (computeScreenBasis pa pb pc eye).vr)
        pa pb pc near far).left
      < (updateOffAxisCamera eye pa pb pc near far).left ∧
    (updateOffAxisCamera (eye + t • (computeScreenBasis pa pb pc eye).vr)
        pa pb pc near far).right
      < (updateOffAxisCamera eye pa pb pc near far).right := by
  have key : ∀ q p : Vec3,
      q.dot (p - (eye + t • (pb - pa).normalize))
        = q.dot (p - eye) - t * q.dot (pb - pa).normalize := by
    intro q p
    simp only [Vec3.dot, Vec3.sub_x, Vec3.sub_y, Vec3.sub_z, Vec3.add_x,
      Vec3.add_y, Vec3.add_z, Vec3.smul_x, Vec3.smul_y, Vec3.smul_z]
    ring
  have hvr : (computeScreenBasis pa pb pc eye).vr = (pb - pa).normalize := basis_vr _ _ _ _
  have hpe : (pa - (eye + t • (pb - pa).normalize)).dot (vn0 pa pb pc)
      = (pa - eye).dot (vn0 pa pb pc) := by
    rw [Vec3.dot_comm, key, Vec3.dot_comm (pa - eye), vn0_dot_normalize_u, mul_zero,
      sub_zero]
  have hvneq : (computeScreenBasis pa pb pc (eye + t • (pb - pa).normalize)).vn
      = (computeScreenBasis pa pb pc eye).vn := by
    unfold computeScreenBasis
    dsimp only
    rw [hpe]
  have hdeq : dOf pa pb pc (eye + t • (pb - pa).normalize) = dOf pa pb pc eye := by
    rw [dOf, dOf, hvneq, Vec3.dot_comm, key, basis_vn_dot_normalize_u, mul_zero,
      sub_zero, Vec3.dot_comm]
  have hsdeq : safeDOf pa pb pc (eye + t • (pb - pa).normalize) = safeDOf pa pb pc eye := by
    rw [safeDOf, safeDOf, hdeq]
  have hS : 0 < safeDOf pa pb pc eye := safeDOf_pos pa pb pc eye
  have huu : (pb - pa).normalize.dot (pb - pa).normalize = 1 :=
    Vec3.normalize_dot_self _ hu
  have hnormdot : ∀ p : Vec3,
      (pb - pa).normalize.dot (p - (eye + t • (pb - pa).normalize))
        = (pb - pa).normalize.dot (p - eye) - t := by
    intro p
    rw [key, huu, mul_one]
  have hstep : ∀ X : ℝ, (X - t) * near / safeDOf pa pb pc eye
      < X * near / safeDOf pa pb pc eye := by
    intro X
    rw [div_lt_div_iff hS hS]
    nlinarith [mul_pos (mul_pos ht hnear) hS]
  constructor
  · rw [updateOffAxisCamera_left, updateOffAxisCamera_left, hvr, hsdeq, hnormdot]
    exact hstep _
  · rw [updateOffAxisCamera_right, updateOffAxisCamera_right, hvr, hsdeq, hnormdot]
    exact hstep _

/-- Witness for C6: unit square screen, eye on the central axis at depth 1,
lateral step `t = 1/4` along the computed right vector. -/
theorem updateOffAxisCamera_lateral_monotone_witness :
    (0 : ℝ) < 4⁻¹ ∧
    0 < dOf ⟨0, 0, 0⟩ ⟨1, 0, 0⟩ ⟨0, 1, 0⟩ ⟨2⁻¹, 2⁻¹, 1⟩ ∧
    (updateOffAxisCamera
        (⟨2⁻¹, 2⁻¹, 1⟩ + (4⁻¹ : ℝ) •
          (computeScreenBasis ⟨0, 0, 0⟩ ⟨1, 0, 0⟩ ⟨0, 1, 0⟩ ⟨2⁻¹, 2⁻¹, 1⟩).vr)
        ⟨0, 0, 0⟩ ⟨1, 0, 0⟩ ⟨0, 1, 0⟩ 0.05 100).left
      < (updateOffAxisCamera ⟨2⁻¹, 2⁻¹, 1⟩ ⟨0, 0, 0⟩ ⟨1, 0, 0⟩ ⟨0, 1, 0⟩ 0.05 100).left ∧
    (updateOffAxisCamera
        (⟨2⁻¹, 2⁻¹, 1⟩ + (4⁻¹ : ℝ) •
          (computeScreenBasis ⟨0, 0, 0⟩ ⟨1, 0, 0⟩ ⟨0, 1, 0⟩ ⟨2⁻¹, 2⁻¹, 1⟩).vr)
        ⟨0, 0, 0⟩ ⟨1, 0, 0⟩ ⟨0, 1, 0⟩ 0.05 100).right
      < (updateOffAxisCamera ⟨2⁻¹, 2⁻¹, 1⟩ ⟨0, 0, 0⟩ ⟨1, 0, 0⟩ ⟨0, 1, 0⟩ 0.05 100).right := by
  have hu : (⟨1, 0, 0⟩ : Vec3) - ⟨0, 0, 0⟩ ≠ 0 := by
    intro hcon
    have h' := congrArg Vec3.x hcon
    simp at h'
  have hw : (⟨0, 1, 0⟩ : Vec3) - ⟨0, 0, 0⟩ ≠ 0 := by
    intro hcon
    have h' := congrArg Vec3.y hcon
    simp at h'
  have hrect : ((⟨1, 0, 0⟩ : Vec3) - ⟨0, 0, 0⟩).dot ((⟨0, 1, 0⟩ : Vec3) - ⟨0, 0, 0⟩) = 0 := by
    norm_num [Vec3.dot]
  have hvn0 : vn0 (⟨0, 0, 0⟩ : Vec3) ⟨1, 0, 0⟩ ⟨0, 1, 0⟩ = ⟨0, 0, 1⟩ := by
    rw [vn0]
    ext <;> norm_num [Vec3.normalize, Vec3.length, Vec3.cross]
  have hvn : (computeScreenBasis ⟨0, 0, 0⟩ ⟨1, 0, 0⟩ ⟨0, 1, 0⟩ ⟨2⁻¹, 2⁻¹, 1⟩).vn
      = ⟨0, 0, 1⟩ := by
    unfold computeScreenBasis
    dsimp only
    rw [hvn0, if_neg]
    norm_num [Vec3.dot]
  have hd : 0 < dOf ⟨0, 0, 0⟩ ⟨1, 0, 0⟩ ⟨0, 1, 0⟩ ⟨2⁻¹, 2⁻¹, 1⟩ := by
    rw [dOf, hvn]
    norm_num [Vec3.dot]
  have h := updateOffAxisCamera_lateral_monotone ⟨0, 0, 0⟩ ⟨1, 0, 0⟩ ⟨0, 1, 0⟩
    ⟨2⁻¹, 2⁻¹, 1⟩ 0.05 100 4⁻¹ hu hw hrect hd (by norm_num) (by norm_num)
  exact ⟨by norm_num, hd, h.1, h.2⟩

/-- screenHeight from `src/components/OffAxisViewer.vue`:
`const screenHeight = 1.0` (the screen height is fixed by configuration). -/
def screenHeight : ℝ := 1

/-- baseEye from `src/components/OffAxisViewer.vue`:
`const baseEye = new THREE.Vector3(0, 0.1, 1.25)`. -/
def baseEye : Vec3 := ⟨0, 0.1, 1.25⟩

/-- applyPointerDelta, `src/components/OffAxisViewer.vue` lines 304-317:
converts a pixel delta into screen-plane units
(`dx = deltaX / max(1, rect.width) * screenWidth`, `dy` with inverted sign),
adds it to `manualOffset.x/.y` and clamps to `±0.45 * screenWidth/Height`.
When the canvas is missing (`if (!canvas) return`) the offset is unchanged. -/
def applyPointerDelta (screenWidth : ℝ) (hasCanvas : Bool)
    (rectWidth rectHeight deltaX deltaY : ℝ) (manualOffset : Vec3) : Vec3 :=
  let maxX := screenWidth * 0.45
  let maxY := screenHeight * 0.45
  if hasCanvas = false then manualOffset else
  let dx := deltaX / max 1 rectWidth * screenWidth
  let dy := -deltaY / max 1 rectHeight * screenHeight
  ⟨clamp (manualOffset.x + dx) (-maxX) maxX,
   clamp (manualOffset.y + dy) (-maxY) maxY,
   manualOffset.z⟩

/-- One pointer-drag event: whether the canvas exists, its bounding
rectangle, and the pixel delta. -/
structure PointerDragEvent where
  hasCanvas : Bool
  rectWidth : ℝ
  rectHeight : ℝ
  deltaX : ℝ
  deltaY : ℝ

/-- A sequence of applyPointerDelta calls folded over the offset. -/
def applyPointerDeltas (screenWidth : ℝ) (evts : List PointerDragEvent)
    (manualOffset : Vec3) : Vec3 :=
  evts.foldl
    (fun off e =>
      applyPointerDelta screenWidth e.hasCanvas e.rectWidth e.rectHeight
        e.deltaX e.deltaY off)
    manualOffset

lemma applyPointerDelta_step_bounds (screenWidth : ℝ) (hsw : 0 ≤ screenWidth)
    (e : PointerDragEvent) (off : Vec3)
    (hx : |off.x| ≤ screenWidth * 0.45) (hy : |off.y| ≤ screenHeight * 0.45) :
    |(applyPointerDelta screenWidth e.hasCanvas e.rectWidth e.rectHeight
        e.deltaX e.deltaY off).x| ≤ screenWidth * 0.45 ∧
    |(applyPointerDelta screenWidth e.hasCanvas e.rectWidth e.rectHeight
        e.deltaX e.deltaY off).y| ≤ screenHeight * 0.45 := by
  have hmx : (0 : ℝ) ≤ screenWidth * 0.45 := by nlinarith
  have hmy : (0 : ℝ) ≤ screenHeight * 0.45 := by norm_num [screenHeight]
  rcases e with ⟨hc, rw', rh', dX, dY⟩
  cases hc
  · simpa [applyPointerDelta] using ⟨hx, hy⟩
  · simp only [applyPointerDelta]
    norm_num
    constructor
    · exact abs_le.mpr ⟨le_clamp _ _ _ (by linarith), clamp_le _ _ _⟩
    · exact abs_le.mpr ⟨le_clamp _ _ _ (by linarith), clamp_le _ _ _⟩

/-- C7: starting from a manual offset within bounds, any sequence of
applyPointerDelta calls keeps `manualOffset.x` within `±0.45 * screenWidth`
and `manualOffset.y` within `±0.45 * screenHeight`; and a call whose delta
pushes outward from an offset already at the bound leaves it pinned exactly
at the bound. -/
theorem applyPointerDelta_clamped
    (screenWidth : ℝ) (off : Vec3) (hsw : 0 < screenWidth)
    (hx : |off.x| ≤ screenWidth * 0.45) (hy : |off.y| ≤ screenHeight * 0.45) :
    (∀ evts : List PointerDragEvent,
      |(applyPointerDeltas screenWidth evts off).x| ≤ screenWidth * 0.45 ∧
      |(applyPointerDeltas screenWidth evts off).y| ≤ screenHeight * 0.45) ∧
    (∀ rectWidth rectHeight deltaX deltaY oy oz : ℝ, 0 ≤ deltaX →
      (applyPointerDelta screenWidth true rectWidth rectHeight deltaX deltaY
        ⟨screenWidth * 0.45, oy, oz⟩).x = screenWidth * 0.45) := by
  constructor
  · intro evts
    induction evts generalizing off with
    | nil => exact ⟨hx, hy⟩
    | cons e rest ih =>
      have hstep := applyPointerDelta_step_bounds screenWidth (le_of_lt hsw) e off hx hy
      simpa [applyPointerDeltas, List.foldl_cons] using
        ih _ hstep.1 hstep.2
  · intro rectWidth rectHeight deltaX deltaY oy oz hdX
    have hdx : 0 ≤ deltaX / max 1 rectWidth * screenWidth := by
      apply mul_nonneg _ (le_of_lt hsw)
      apply div_nonneg hdX
      exact le_trans (by norm_num) (le_max_left 1 rectWidth)
    have hmx : (0 : ℝ) ≤ screenWidth * 0.45 := by nlinarith
    simp only [applyPointerDelta]
    norm_num
    rw [clamp, max_eq_right (by linarith), min_eq_left (by linarith)]

/-- Witness for C7: screen width 16/9, offset starting at the origin, a
two-event drag sequence, and a pinned outward drag at the positive bound. -/
theorem applyPointerDelta_clamped_witness :
    (0 : ℝ) < 16 / 9 ∧
    |(applyPointerDeltas (16 / 9)
        [⟨true, 800, 600, 5000, -3⟩, ⟨true, 800, 600, 7, 2⟩] ⟨0, 0, 0⟩).x|
      ≤ 16 / 9 * 0.45 ∧
    (applyPointerDelta (16 / 9) true 800 600 25 0 ⟨16 / 9 * 0.45, 0, 0⟩).x
      = 16 / 9 * 0.45 := by
  have hsw : (0 : ℝ) < 16 / 9 := by norm_num
  have hx : |(⟨0, 0, 0⟩ : Vec3).x| ≤ (16 / 9 : ℝ) * 0.45 := by norm_num
  have hy : |(⟨0, 0, 0⟩ : Vec3).y| ≤ screenHeight * 0.45 := by norm_num [screenHeight]
  have h := applyPointerDelta_clamped (16 / 9) ⟨0, 0, 0⟩ hsw hx hy
  exact ⟨hsw, (h.1 [⟨true, 800, 600, 5000, -3⟩, ⟨true, 800, 600, 7, 2⟩]).1,
    h.2 800 600 25 0 0 0 (by norm_num)⟩

/-- One normalized facial landmark as produced by the detector. -/
structure Landmark where
  x : ℝ
  y : ℝ

/-- The mutable state touched by updateHeadTracking. -/
structure TrackState where
  trackedOffset : Vec3
  faceBaselineWidth : Option ℝ
  trackingStatus : String
  lastFaceConfidence : Option ℝ

/-- updateHeadTracking, `src/components/OffAxisViewer.vue` lines 334-385
(detection core, after the enable/readyState/rate-limit guards):
with zero landmarks it clears the confidence, lerps `trackedOffset` toward
zero with factor 0.2 and reports the no-face status; with landmarks it folds
the bounding box (initial accumulators 1/0 as in the source), derives the
normalized offsets, re-establishes the baseline when it is unset (JS falsy:
absent or zero), clamps the target and lerps `trackedOffset` toward it with
factor 0.18. -/
def updateHeadTracking (screenWidth : ℝ) (landmarks : List Landmark)
    (s : TrackState) : TrackState :=
  if landmarks.isEmpty then
    { s with
      lastFaceConfidence := none
      trackedOffset := s.trackedOffset.lerp 0 0.2
      trackingStatus := "Webcam on (no face)" }
  else
    let minLandmarkX := landmarks.foldl (fun m p => min m p.x) 1
    let maxLandmarkX := landmarks.foldl (fun m p => max m p.x) 0
    let minLandmarkY := landmarks.foldl (fun m p => min m p.y) 1
    let maxLandmarkY := landmarks.foldl (fun m p => max m p.y) 0
    let centerX := (minLandmarkX + maxLandmarkX) / 2
    let centerY := (minLandmarkY + maxLandmarkY) / 2
    let faceWidth := max 1e-6 (maxLandmarkX - minLandmarkX)
    let baseline :=
      match s.faceBaselineWidth with
      | none => faceWidth
      | some b => if b = 0 then faceWidth else b
    let xNorm := (centerX - 0.5) * 2
    let yNorm := (centerY - 0.5) * 2
    let zNorm := baseline / faceWidth - 1
    let maxX := screenWidth * 0.35
    let maxY := screenHeight * 0.35
    let maxZ : ℝ := 0.7
    let minZ : ℝ := -0.55
    let target : Vec3 :=
      ⟨clamp (xNorm * maxX) (-maxX) maxX,
       clamp (-yNorm * maxY) (-maxY) maxY,
       clamp (zNorm * 0.9) minZ maxZ⟩
    { trackedOffset := s.trackedOffset.lerp target 0.18
      faceBaselineWidth := some baseline
      trackingStatus := "Webcam on"
      lastFaceConfidence := some faceWidth }

lemma updateHeadTracking_noFace_offset (screenWidth : ℝ) (s : TrackState) :
    (updateHeadTracking screenWidth [] s).trackedOffset
      = (0.8 : ℝ) • s.trackedOffset := by
  simp only [updateHeadTracking, List.isEmpty_nil, if_pos]
  ext <;> simp [Vec3.lerp] <;> ring

lemma one_smul_vec (v : Vec3) : (1 : ℝ) • v = v := by
  ext <;> simp

lemma length_smul_of_nonneg (c : ℝ) (v : Vec3) (hc : 0 ≤ c) :
    (c • v).length = c * v.length := by
  rw [Vec3.length, Vec3.length]
  have harg : (c • v).x * (c • v).x + (c • v).y * (c • v).y + (c • v).z * (c • v).z
      = c ^ 2 * (v.x * v.x + v.y * v.y + v.z * v.z) := by
    simp only [Vec3.smul_x, Vec3.smul_y, Vec3.smul_z]; ring
  rw [harg, Real.sqrt_mul (sq_nonneg c), Real.sqrt_sq hc]

lemma noFace_iterate_offset (screenWidth : ℝ) (s0 : TrackState) (n : ℕ) :
    (((fun s => updateHeadTracking screenWidth [] s))^[n] s0).trackedOffset
      = ((0.8 : ℝ) ^ n) • s0.trackedOffset := by
  induction n with
  | zero => simp [one_smul_vec]
  | succ m ih =>
    rw [Function.iterate_succ_apply', updateHeadTracking_noFace_offset, ih,
      Vec3.smul_smul]
    congr 1
    ring

/-- C8: while tracking is active, each no-face poll multiplies
`trackedOffset` by the fixed factor 0.8 (lerp toward zero with alpha 0.2):
after `n` polls the magnitude is exactly `0.8^n` times the starting
magnitude, the offset is still nonzero, and the magnitude strictly decreases
at every poll — it approaches zero but never reaches it. -/
theorem updateHeadTracking_noFace_decay
    (screenWidth : ℝ) (s0 : TrackState) (n : ℕ)
    (h : s0.trackedOffset ≠ 0) :
    (((fun s => updateHeadTracking screenWidth [] s))^[n] s0).trackedOffset.length
      = (0.8 : ℝ) ^ n * s0.trackedOffset.length ∧
    (((fun s => updateHeadTracking screenWidth [] s))^[n] s0).trackedOffset ≠ 0 ∧
    (((fun s => updateHeadTracking screenWidth [] s))^[n + 1] s0).trackedOffset.length
      < (((fun s => updateHeadTracking screenWidth [] s))^[n] s0).trackedOffset.length := by
  have hpow : (0 : ℝ) ≤ (0.8 : ℝ) ^ n := pow_nonneg (by norm_num) n
  have hlen : ∀ m : ℕ,
      (((fun s => updateHeadTracking screenWidth [] s))^[m] s0).trackedOffset.length
        = (0.8 : ℝ) ^ m * s0.trackedOffset.length := by
    intro m
    rw [noFace_iterate_offset, length_smul_of_nonneg _ _ (pow_nonneg (by norm_num) m)]
  have hL : 0 < s0.trackedOffset.length := Vec3.length_pos _ h
  refine ⟨hlen n, ?_, ?_⟩
  · rw [noFace_iterate_offset]
    intro hcon
    rcases (Vec3.smul_eq_zero_iff _ _).mp hcon with hc | hc
    · exact pow_ne_zero n (by norm_num : (0.8 : ℝ) ≠ 0) hc
    · exact h hc
  · rw [hlen n, hlen (n + 1)]
    have hlt : (0.8 : ℝ) ^ (n + 1) < (0.8 : ℝ) ^ n := by
      have h1 : (0.8 : ℝ) ^ n * 0.8 < (0.8 : ℝ) ^ n * 1 :=
        mul_lt_mul_of_pos_left (by norm_num) (pow_pos (by norm_num) n)
      calc (0.8 : ℝ) ^ (n + 1) = (0.8 : ℝ) ^ n * 0.8 := by ring
        _ < (0.8 : ℝ) ^ n * 1 := h1
        _ = (0.8 : ℝ) ^ n := by ring
    exact mul_lt_mul_of_pos_right hlt hL

/-- Witness for C8: starting tracked offset `(0.1, -0.2, 0)` and three
consecutive no-face polls. -/
theorem updateHeadTracking_noFace_decay_witness :
    ((⟨0.1, -0.2, 0⟩ : Vec3) ≠ 0) ∧
    (((fun s => updateHeadTracking (16 / 9) [] s))^[3]
        ⟨⟨0.1, -0.2, 0⟩, none, "Webcam on", none⟩).trackedOffset.length
      = (0.8 : ℝ) ^ 3 * (⟨0.1, -0.2, 0⟩ : Vec3).length ∧
    (((fun s => updateHeadTracking (16 / 9) [] s))^[3]
        ⟨⟨0.1, -0.2, 0⟩, none, "Webcam on", none⟩).trackedOffset ≠ 0 ∧
    (((fun s => updateHeadTracking (16 / 9) [] s))^[4]
        ⟨⟨0.1, -0.2, 0⟩, none, "Webcam on", none⟩).trackedOffset.length
      < (((fun s => updateHeadTracking (16 / 9) [] s))^[3]
          ⟨⟨0.1, -0.2, 0⟩, none, "Webcam on", none⟩).trackedOffset.length := by
  have h : (⟨0.1, -0.2, 0⟩ : Vec3) ≠ 0 := by
    intro hcon
    have h' := congrArg Vec3.x hcon
    simp at h'
    norm_num at h'
  have hmain := updateHeadTracking_noFace_decay (16 / 9)
    ⟨⟨0.1, -0.2, 0⟩, none, "Webcam on", none⟩ 3 h
  exact ⟨h, hmain.1, hmain.2.1, hmain.2.2⟩

/-- The screen-plane state mutated by updateScreenFromViewport. -/
structure ScreenState where
  screenWidth : ℝ
  pa : Vec3
  pb : Vec3
  pc : Vec3
  pd : Vec3

/-- updateScreenFromViewport, `src/components/OffAxisViewer.vue` lines
243-272 (screen-frame mesh update omitted — a rendering side effect):
returns early only when the renderer is missing; otherwise computes
`aspect = size.x / max(1, size.y)`, sets
`screenWidth = screenHeight * aspect` and rebuilds `pa/pb/pc` on the `z = 0`
plane, with `pd = pb + pc - pa`. -/
def updateScreenFromViewport (hasRenderer : Bool) (sizeX sizeY : ℝ)
    (s : ScreenState) : ScreenState :=
  if hasRenderer = false then s else
  let aspect := sizeX / max 1 sizeY
  let w := screenHeight * aspect
  let npa : Vec3 := ⟨-w / 2, -screenHeight / 2, 0⟩
  let npb : Vec3 := ⟨w / 2, -screenHeight / 2, 0⟩
  let npc : Vec3 := ⟨-w / 2, screenHeight / 2, 0⟩
  { screenWidth := w, pa := npa, pb := npb, pc := npc, pd := npb + npc - npa }

/-- The screen plane a 16:9 viewport produces; used as the previous state in
the zero-area counterexample. -/
def demoScreenState : ScreenState :=
  { screenWidth := 16 / 9
    pa := ⟨-(8 / 9), -(1 / 2), 0⟩
    pb := ⟨8 / 9, -(1 / 2), 0⟩
    pc := ⟨-(8 / 9), 1 / 2, 0⟩
    pd := ⟨8 / 9, 1 / 2, 0⟩ }

/-- C9 (counterexample): invoking the update with a zero-width viewport
(size 0 x 600) is NOT a no-op: the stored plane is replaced, `screenWidth`
becomes 0 and the corners collapse (`pa = pb`). -/
theorem updateScreenFromViewport_zero_area_counterexample :
    (updateScreenFromViewport true 0 600 demoScreenState).screenWidth = 0 ∧
    (updateScreenFromViewport true 0 600 demoScreenState).screenWidth
      ≠ demoScreenState.screenWidth ∧
    (updateScreenFromViewport true 0 600 demoScreenState).pa
      = (updateScreenFromViewport true 0 600 demoScreenState).pb := by
  refine ⟨?_, ?_, ?_⟩
  · simp [updateScreenFromViewport, screenHeight]
  · simp [updateScreenFromViewport, demoScreenState, screenHeight]
    norm_num
  · ext <;> simp [updateScreenFromViewport, screenHeight]

/-- C9 (amended): the update is a no-op only when the renderer is missing.
With a renderer present it always recomputes the plane:
`screenWidth = screenHeight * (sizeX / max(1, sizeY))`.  A zero-height
viewport is only protected inside the divisor (`max(1, sizeY)`); a
zero-width viewport yields `screenWidth = 0` with coincident corners
`pa = pb` — the previous plane is not retained. -/
theorem updateScreenFromViewport_not_guarded (s : ScreenState) (sizeX sizeY : ℝ) :
    updateScreenFromViewport false sizeX sizeY s = s ∧
    (updateScreenFromViewport true sizeX sizeY s).screenWidth
      = screenHeight * (sizeX / max 1 sizeY) ∧
    (updateScreenFromViewport true 0 sizeY s).screenWidth = 0 ∧
    (updateScreenFromViewport true 0 sizeY s).pa
      = (updateScreenFromViewport true 0 sizeY s).pb := by
  refine ⟨rfl, rfl, ?_, ?_⟩
  · simp [updateScreenFromViewport, screenHeight]
  · ext <;> simp [updateScreenFromViewport, screenHeight]

/-- applyKeyboard, `src/components/OffAxisViewer.vue` lines 282-301: for
each held key, moves the corresponding `manualOffset` axis by
`speedXY * dt` (arrows) or `speedZ * dt` (Q/E), then clamps x/y to
`±0.45 * screenWidth/Height` and z to `[minZ - baseEye.z, maxZ - baseEye.z]`
with `minZ = 0.35`, `maxZ = 2.25`, `speedXY = screenHeight * 0.9`,
`speedZ = 1.25`. -/
def applyKeyboard (screenWidth : ℝ) (pressedKeys : List String)
    (dtSeconds : ℝ) (manualOffset : Vec3) : Vec3 :=
  let maxX := screenWidth * 0.45
  let maxY := screenHeight * 0.45
  let maxZ : ℝ := 2.25
  let minZ : ℝ := 0.35
  let speedXY := screenHeight * 0.9
  let speedZ : ℝ := 1.25
  let x1 := if pressedKeys.contains "ArrowLeft"
    then manualOffset.x - speedXY * dtSeconds else manualOffset.x
  let x2 := if pressedKeys.contains "ArrowRight"
    then x1 + speedXY * dtSeconds else x1
  let y1 := if pressedKeys.contains "ArrowUp"
    then manualOffset.y + speedXY * dtSeconds else manualOffset.y
  let y2 := if pressedKeys.contains "ArrowDown"
    then y1 - speedXY * dtSeconds else y1
  let z1 := if pressedKeys.contains "KeyQ"
    then manualOffset.z - speedZ * dtSeconds else manualOffset.z
  let z2 := if pressedKeys.contains "KeyE"
    then z1 + speedZ * dtSeconds else z1
  ⟨clamp x2 (-maxX) maxX, clamp y2 (-maxY) maxY,
   clamp z2 (minZ - baseEye.z) (maxZ - baseEye.z)⟩

/-- The elapsed-time value renderFrame passes to applyKeyboard,
`src/components/OffAxisViewer.vue` line 422:
`dtSeconds = clamp((nowMs - lastTime) / 1000, 0, 0.05)`. -/
def renderFrameDt (nowMs lastTime : ℝ) : ℝ :=
  clamp ((nowMs - lastTime) / 1000) 0 0.05

lemma abs_clamp_sub_le (a b lo hi : ℝ) (h1 : lo ≤ a) (h2 : a ≤ hi) :
    |clamp b lo hi - a| ≤ |b - a| := by
  rw [clamp]
  rcases le_total b lo with hb | hb
  · rw [max_eq_left hb, min_eq_right (by linarith : lo ≤ hi),
      abs_of_nonpos (by linarith : lo - a ≤ 0),
      abs_of_nonpos (by linarith : b - a ≤ 0)]
    linarith
  · rw [max_eq_right hb]
    rcases le_total b hi with hc | hc
    · rw [min_eq_right hc]
    · rw [min_eq_left hc, abs_of_nonneg (by linarith : 0 ≤ hi - a),
        abs_of_nonneg (by linarith : 0 ≤ b - a)]
      linarith

set_option maxHeartbeats 1000000 in
/-- C10: the elapsed time passed by renderFrame to applyKeyboard is clamped
into `[0, 0.05]` seconds, so — whatever wall-clock interval elapsed, even a
stall or a clock running backwards — a single tick moves an in-bounds
`manualOffset` by at most `speedXY * 0.05` on x and y and `speedZ * 0.05`
on z. -/
theorem renderFrame_keyboard_step_bound
    (screenWidth nowMs lastTime : ℝ) (keys : List String) (off : Vec3)
    (hsw : 0 ≤ screenWidth)
    (hx : |off.x| ≤ screenWidth * 0.45) (hy : |off.y| ≤ screenHeight * 0.45)
    (hz1 : 0.35 - baseEye.z ≤ off.z) (hz2 : off.z ≤ 2.25 - baseEye.z) :
    0 ≤ renderFrameDt nowMs lastTime ∧ renderFrameDt nowMs lastTime ≤ 0.05 ∧
    |(applyKeyboard screenWidth keys (renderFrameDt nowMs lastTime) off).x - off.x|
      ≤ screenHeight * 0.9 * 0.05 ∧
    |(applyKeyboard screenWidth keys (renderFrameDt nowMs lastTime) off).y - off.y|
      ≤ screenHeight * 0.9 * 0.05 ∧
    |(applyKeyboard screenWidth keys (renderFrameDt nowMs lastTime) off).z - off.z|
      ≤ 1.25 * 0.05 := by
  have hdt0 : 0 ≤ renderFrameDt nowMs lastTime :=
    le_clamp _ _ _ (by norm_num)
  have hdt5 : renderFrameDt nowMs lastTime ≤ 0.05 := clamp_le _ _ _
  have hsXY : (0 : ℝ) ≤ screenHeight * 0.9 := by norm_num [screenHeight]
  have hsZ : (0 : ℝ) ≤ (1.25 : ℝ) := by norm_num
  set dt := renderFrameDt nowMs lastTime with hdtdef
  have hxy45 : -(screenWidth * 0.45) ≤ off.x ∧ off.x ≤ screenWidth * 0.45 :=
    abs_le.mp hx
  have hyy45 : -(screenHeight * 0.45) ≤ off.y ∧ off.y ≤ screenHeight * 0.45 :=
    abs_le.mp hy
  have hXYdt : screenHeight * 0.9 * dt ≤ screenHeight * 0.9 * 0.05 :=
    mul_le_mul_of_nonneg_left hdt5 hsXY
  have hZdt : (1.25 : ℝ) * dt ≤ 1.25 * 0.05 :=
    mul_le_mul_of_nonneg_left hdt5 hsZ
  have hXYdt0 : 0 ≤ screenHeight * 0.9 * dt := mul_nonneg hsXY hdt0
  have hZdt0 : 0 ≤ (1.25 : ℝ) * dt := mul_nonneg hsZ hdt0
  refine ⟨hdt0, hdt5, ?_, ?_, ?_⟩
  · simp only [applyKeyboard]
    refine le_trans (le_trans (abs_clamp_sub_le _ _ _ _ hxy45.1 hxy45.2) ?_) hXYdt
    by_cases hL : "ArrowLeft" ∈ keys <;>
      by_cases hR : "ArrowRight" ∈ keys <;>
        simp [hL, hR] <;>
          first
          | linarith
          | (rw [abs_le]; constructor <;> linarith)
          | (rw [abs_le]; constructor <;> nlinarith)
  · simp only [applyKeyboard]
    refine le_trans (le_trans (abs_clamp_sub_le _ _ _ _ hyy45.1 hyy45.2) ?_) hXYdt
    by_cases hU : "ArrowUp" ∈ keys <;>
      by_cases hD : "ArrowDown" ∈ keys <;>
        simp [hU, hD] <;>
          first
          | linarith
          | (rw [abs_le]; constructor <;> linarith)
          | (rw [abs_le]; constructor <;> nlinarith)
  · simp only [applyKeyboard]
    refine le_trans (le_trans (abs_clamp_sub_le _ _ _ _ hz1 hz2) ?_) hZdt
    by_cases hQ : "KeyQ" ∈ keys <;>
      by_cases hE : "KeyE" ∈ keys <;>
        simp [hQ, hE] <;>
          first
          | linarith
          | (rw [abs_le]; constructor <;> linarith)
          | (rw [abs_le]; constructor <;> nlinarith)

/-- Witness for C10: screen width 16/9, offset at the origin, ArrowRight and
KeyE held, and a 3-second stall between ticks. -/
theorem renderFrame_keyboard_step_bound_witness :
    (0 : ℝ) ≤ 16 / 9 ∧
    renderFrameDt 4000 1000 ≤ 0.05 ∧
    |(applyKeyboard (16 / 9) ["ArrowRight", "KeyE"] (renderFrameDt 4000 1000)
        ⟨0, 0, 0⟩).x - (⟨0, 0, 0⟩ : Vec3).x| ≤ screenHeight * 0.9 * 0.05 ∧
    |(applyKeyboard (16 / 9) ["ArrowRight", "KeyE"] (renderFrameDt 4000 1000)
        ⟨0, 0, 0⟩).z - (⟨0, 0, 0⟩ : Vec3).z| ≤ 1.25 * 0.05 := by
  have hsw : (0 : ℝ) ≤ 16 / 9 := by norm_num
  have hx : |(⟨0, 0, 0⟩ : Vec3).x| ≤ (16 / 9 : ℝ) * 0.45 := by norm_num
  have hy : |(⟨0, 0, 0⟩ : Vec3).y| ≤ screenHeight * 0.45 := by norm_num [screenHeight]
  have hz1 : (0.35 : ℝ) - baseEye.z ≤ (⟨0, 0, 0⟩ : Vec3).z := by norm_num [baseEye]
  have hz2 : (⟨0, 0, 0⟩ : Vec3).z ≤ (2.25 : ℝ) - baseEye.z := by norm_num [baseEye]
  have h := renderFrame_keyboard_step_bound (16 / 9) 4000 1000
    ["ArrowRight", "KeyE"] ⟨0, 0, 0⟩ hsw hx hy hz1 hz2
  exact ⟨hsw, h.2.1, h.2.2.1, h.2.2.2.2⟩

end

end OffAxis
